import Mathlib

/-!
Verification development for the meeting-video composition and export
pipeline (`src/services` and `src/models` of the repository).

Conventions of the shallow embedding:
* Python `int` is modelled by `Int`; Python floor division `//` is
  `Int.fdiv` (Python `//` floors toward negative infinity).
* Python `float` arithmetic is modelled exactly by `ℚ`; the float cast
  `int(x)` truncates toward zero and is modelled by `pyInt`.
* `numpy` sample buffers are `List ℚ`; raster images are lists of rows of
  pixels, a pixel being its list of channel values.
* External-process effects (ffmpeg invocations, `os.rename`) are modelled
  by an oracle environment recording whether each invocation succeeds.
-/

namespace MeetingVideo

/-- Python `int(x)` applied to a float: truncation toward zero. -/
def pyInt (q : ℚ) : Int := if 0 ≤ q then ⌊q⌋ else -⌊-q⌋

/-- Embeds `src/models/speaker_config.py PositionConfig`: fixed screen position. -/
structure PositionConfig where
  x : Int
  y : Int
deriving DecidableEq, Repr

/-- Embeds `src/models/speaker_config.py SpeakerConfig`: the fields used by the
composition engine (box size and optional fixed position). -/
structure SpeakerConfig where
  width : Int
  height : Int
  position : Option PositionConfig
deriving DecidableEq, Repr

/-- Embeds `src/models/export_config.py VideoCodecConfig`: codec name, preset,
quality factor, bitrate string (of the form `"5000k"`). -/
structure VideoCodecConfig where
  codec : String
  preset : String
  crf : Int
  bitrate : String
deriving DecidableEq, Repr

/-- Embeds `src/models/export_config.py GPUConfig`: acceleration preference and
the runtime-resolved codec. -/
structure GPUConfig where
  use_gpu : Bool
  gpu_codec : Option String
deriving DecidableEq, Repr

/-- Embeds `src/models/export_config.py ExportConfig`: the fields the services
read (output geometry, requested fps, codec and GPU configuration). -/
structure ExportConfig where
  width : Int
  height : Int
  fps : ℚ
  video_codec : VideoCodecConfig
  gpu_config : GPUConfig
deriving DecidableEq, Repr

/-! ## Hardware codec detection (`ExportService._detect_gpu_codec`) -/

/-- Result of `subprocess.run(["ffmpeg", "-encoders"], ...)` as the
detection code consumes it: the call can raise (modelled by `failed`), or
return stdout, of which the code only tests whether each of the three
hardware encoder names occurs as a substring. -/
inductive EncoderQuery where
  | failed : EncoderQuery
  | ok (hasNvenc hasQsv hasVaapi : Bool) : EncoderQuery
deriving DecidableEq, Repr

/-- Pydantic validated assignment to `GPUConfig.gpu_codec`: `BaseConfig`
sets `validate_assignment=True` (`src/models/base.py`) and the field is
typed `Optional[Literal["h264_nvenc", "h264_qsv", "h264_vaapi"]]`
(`src/models/export_config.py`), so assigning any other string raises
`ValidationError`, modelled by `none`. -/
def assignGpuCodec (v : String) : Option String :=
  if v = "h264_nvenc" ∨ v = "h264_qsv" ∨ v = "h264_vaapi" then some v
  else none

/-- Embeds `src/services/export_service.py ExportService._detect_gpu_codec`
together with the pydantic assignment validation of
`GPUConfig.gpu_codec`.  Returns the codec the method stores, or `none`
when the method raises out of `__init__`: the `use_gpu` disabled branch
assigns `"libx264"` outside any try; inside the try block the
no-hardware-encoder branch assigns `"libx264"`, whose
`ValidationError` is caught by `except Exception`, and the handler then
assigns `"libx264"` again, uncaught; a failing subprocess query goes
straight to that handler. -/
def detect_gpu_codec (use_gpu : Bool) (query : EncoderQuery) :
    Option String :=
  if use_gpu = false then assignGpuCodec "libx264"
  else
    match query with
    | .failed => assignGpuCodec "libx264"
    | .ok hasNvenc hasQsv hasVaapi =>
      if hasNvenc then assignGpuCodec "h264_nvenc"
      else if hasQsv then assignGpuCodec "h264_qsv"
      else if hasVaapi then assignGpuCodec "h264_vaapi"
      else
        match assignGpuCodec "libx264" with
        | some c => some c
        | none => assignGpuCodec "libx264"

/-! ## Encoder parameter construction (`ExportService._get_video_codec_params`) -/

/-- Python `bitrate.replace("k", "")`: removing every occurrence of the
one-character pattern `"k"` is exactly filtering out the character. -/
def stripK (s : String) : String :=
  String.mk (s.data.filter (fun c => c ≠ 'k'))

/-- Decimal digit accumulation for `pyIntOfStr`. -/
def digitsToNat (cs : List Char) : Nat :=
  cs.foldl (fun n c => n * 10 + (c.toNat - 48)) 0

/-- Python `int(s)` on a nonnegative decimal string: `some` of its value
when `s` is a nonempty all-digit string, `none` (ValueError) otherwise. -/
def pyIntOfStr (s : String) : Option Nat :=
  if s.data ≠ [] ∧ s.data.all (fun c => c.isDigit) then
    some (digitsToNat s.data)
  else none

/-- Embeds `src/services/export_service.py ExportService._get_video_codec_params`.
Returns the ffmpeg video-codec flag list for the resolved codec.  The
NVIDIA branch parses the bitrate string with
`int(bitrate.replace("k", ""))`; a non-numeric remainder would raise
`ValueError` in Python, modelled by `none`. -/
def getVideoCodecParams (cfg : VideoCodecConfig) (gpu_codec : String) :
    Option (List String) :=
  if gpu_codec = "h264_nvenc" then
    match pyIntOfStr (stripK cfg.bitrate) with
    | none => none
    | some n =>
      some ["-c:v", "h264_nvenc", "-preset", "fast", "-rc", "vbr",
            "-cq", toString cfg.crf, "-b:v", cfg.bitrate,
            "-maxrate", cfg.bitrate, "-bufsize", toString (n * 2) ++ "k"]
  else if gpu_codec = "h264_qsv" then
    some ["-c:v", "h264_qsv", "-preset", "fast",
          "-global_quality", toString cfg.crf, "-b:v", cfg.bitrate]
  else if gpu_codec = "h264_vaapi" then
    some ["-c:v", "h264_vaapi", "-qp", toString cfg.crf, "-b:v", cfg.bitrate]
  else
    some ["-c:v", cfg.codec, "-preset", cfg.preset,
          "-crf", toString cfg.crf, "-b:v", cfg.bitrate]

/-- The value of a flag in an alternating flag/value list: the string
following the first flag position holding `flag`. -/
def flagValue (flag : String) : List String → Option String
  | [] => none
  | [_] => none
  | a :: b :: rest => if a = flag then some b else flagValue flag rest

/-! ## Mux/encode phase (`ExportService._combine_video_audio`) -/

/-- Oracle for the external effects of the mux phase: whether a given
ffmpeg command exits successfully, and whether `os.rename` succeeds. -/
structure MuxEnv where
  run : List String → Bool
  renameOk : Bool

/-- Content ending up at the output path. -/
inductive OutFile where
  /-- Produced by a successful ffmpeg invocation with the given argv. -/
  | encoded (cmd : List String)
  /-- Exact bytes of a renamed file. -/
  | bytes (b : List Nat)
deriving DecidableEq, Repr

/-- Result of the mux phase: the boolean the method returns, the ffmpeg
commands attempted in order, and the final content at the output path. -/
structure MuxResult where
  success : Bool
  attempts : List (List String)
  output : Option OutFile
deriving DecidableEq

/-- The trailing audio/mux flags shared by both audio-path commands. -/
def audioTailFlags (output_path : String) : List String :=
  ["-c:a", "aac", "-b:a", "128k", "-shortest",
   "-movflags", "+faststart", "-y", output_path]

/-- The CPU fallback video flags (`-c:v libx264` with the configured
preset, crf and bitrate), as built inline in `_combine_video_audio`. -/
def cpuVideoFlags (cfg : VideoCodecConfig) : List String :=
  ["-c:v", "libx264", "-preset", cfg.preset,
   "-crf", toString cfg.crf, "-b:v", cfg.bitrate]

/-- The first ffmpeg command of `_combine_video_audio`: inputs (with the
mixed-audio WAV when present), the resolved codec parameters, and the
audio/mux tail flags of the corresponding branch. -/
def muxPrimaryCmd (codecParams : List String) (hasAudio : Bool)
    (temp_video temp_audio output_path : String) : List String :=
  if hasAudio then
    ["ffmpeg", "-i", temp_video, "-i", temp_audio] ++ codecParams ++
      audioTailFlags output_path
  else
    ["ffmpeg", "-i", temp_video] ++ codecParams ++
      ["-movflags", "+faststart", "-y", output_path]

/-- The retry command of `_combine_video_audio`: same inputs and tail
flags, video flags replaced by the CPU `libx264` flags. -/
def muxFallbackCmd (cfg : VideoCodecConfig) (hasAudio : Bool)
    (temp_video temp_audio output_path : String) : List String :=
  if hasAudio then
    ["ffmpeg", "-i", temp_video, "-i", temp_audio] ++ cpuVideoFlags cfg ++
      audioTailFlags output_path
  else
    ["ffmpeg", "-i", temp_video] ++ cpuVideoFlags cfg ++
      ["-movflags", "+faststart", "-y", output_path]

/-- Embeds `src/services/export_service.py ExportService._combine_video_audio`:
first attempt with the resolved (possibly hardware) codec parameters,
one retry with CPU `libx264`, then the `os.rename` last resort that makes
the intermediate video the output verbatim.  `tempBytes` is the byte
content of the intermediate video file; `hasAudio` distinguishes the
`mixed_audio is not None` branch.  `none` output with `success = false`
covers the paths that return `False`. -/
def combineVideoAudio (cfg : VideoCodecConfig) (gpu_codec : String)
    (hasAudio : Bool) (env : MuxEnv)
    (temp_video temp_audio output_path : String) (tempBytes : List Nat) :
    MuxResult :=
  match getVideoCodecParams cfg gpu_codec with
  | none => ⟨false, [], none⟩
  | some codecParams =>
    let gpuCmd := muxPrimaryCmd codecParams hasAudio temp_video temp_audio
      output_path
    if env.run gpuCmd then ⟨true, [gpuCmd], some (.encoded gpuCmd)⟩
    else
      let cpuCmd := muxFallbackCmd cfg hasAudio temp_video temp_audio
        output_path
      if env.run cpuCmd then
        ⟨true, [gpuCmd, cpuCmd], some (.encoded cpuCmd)⟩
      else if env.renameOk then
        ⟨true, [gpuCmd, cpuCmd], some (.bytes tempBytes)⟩
      else ⟨false, [gpuCmd, cpuCmd], none⟩

/-! ## Audio mixing (`AudioProcessor.mix_audio`) -/

/-- Embeds `np.pad(xs, (0, max(0, target - len(xs))), "constant")[:target]`:
right-zero-pad to at least `target` samples, truncate to exactly
`target`. -/
def padTruncate (target : Nat) (xs : List ℚ) : List ℚ :=
  (xs ++ List.replicate (target - xs.length) 0).take target

/-- Embeds `np.max(np.abs(xs))` for a nonempty `xs` (all entries of `np.abs`
are nonnegative, so folding `max` from 0 gives the same value; on an
empty array `np.max` raises, which callers handle separately). -/
def maxAbs : List ℚ → ℚ
  | [] => 0
  | x :: xs => max |x| (maxAbs xs)

/-- The summed (pre-normalization) mix: zeros of the target length,
plus each present input padded/truncated to the target length. -/
def mixRawSum (audio1 audio2 : Option (List ℚ)) (target : Nat) :
    List ℚ :=
  let mixed0 := List.replicate target (0 : ℚ)
  let mixed1 := match audio1 with
    | none => mixed0
    | some xs => List.zipWith (· + ·) mixed0 (padTruncate target xs)
  match audio2 with
  | none => mixed1
  | some xs => List.zipWith (· + ·) mixed1 (padTruncate target xs)

/-- Sample `i` of an optional input as the mixer consumes it: absent
inputs and positions beyond the end contribute zero. -/
def bufVal (audio : Option (List ℚ)) (i : Nat) : ℚ :=
  match audio with
  | none => 0
  | some xs => xs.getD i 0

/-- Result of `mix_audio`: `absent` models the Python `None` return
(both inputs absent), `error` a raised exception. -/
inductive MixOutcome where
  | absent : MixOutcome
  | buffer (xs : List ℚ) : MixOutcome
  | error : MixOutcome
deriving DecidableEq, Repr

/-- Embeds `src/services/audio_processor.py AudioProcessor.mix_audio`.
`target_length = int(max_duration * sr)` (float truncation).  When the
target length is zero (or negative), `np.max` over the empty mix raises
`ValueError`, modelled by `.error`.  When the summed mix has positive
peak it is rescaled by `0.8 / peak`. -/
def mix_audio (audio1 audio2 : Option (List ℚ)) (sr max_duration : ℚ) :
    MixOutcome :=
  match audio1, audio2 with
  | none, none => .absent
  | _, _ =>
    let target := (pyInt (max_duration * sr)).toNat
    if target = 0 then .error
    else
      let mixed := mixRawSum audio1 audio2 target
      let peak := maxAbs mixed
      if 0 < peak then .buffer (mixed.map (fun v => v / peak * 0.8))
      else .buffer mixed

/-! ## Speaker positions (`CompositionEngine._calculate_speaker_positions`) -/

/-- Embeds `src/services/composition_engine.py
CompositionEngine._calculate_speaker_positions`: upper-left corners for
the two speaker boxes.  Python `//` is `Int.fdiv`. -/
def calculateSpeakerPositions (sc : SpeakerConfig) (ec : ExportConfig) :
    (Int × Int) × (Int × Int) :=
  let output_w := ec.width
  let output_h := ec.height
  let speaker_w := sc.width
  let speaker_h := sc.height
  let half_width := output_w.fdiv 2
  match sc.position with
  | some p => ((p.x, p.y), (half_width + 100, p.y))
  | none =>
    let center_y := (output_h - speaker_h).fdiv 2
    let speaker1_x := (half_width - speaker_w).fdiv 2
    let speaker1_pos := (speaker1_x, center_y)
    let speaker2_x := half_width + (half_width - speaker_w).fdiv 2
    let speaker2_pos := (speaker2_x, center_y)
    (speaker1_pos, speaker2_pos)

/-- A `w × h` box anchored at `pos` lies fully inside the `W × H` frame:
all four corners in `[0, W) × [0, H)`. -/
def boxWithin (pos : Int × Int) (w h W H : Int) : Prop :=
  0 ≤ pos.1 ∧ 0 ≤ pos.2 ∧ pos.1 + w ≤ W ∧ pos.2 + h ≤ H

instance (pos : Int × Int) (w h W H : Int) :
    Decidable (boxWithin pos w h W H) := by
  unfold boxWithin; infer_instance

/-- Two `w × h` boxes at `p1`, `p2` do not overlap (no common pixel). -/
def boxesDisjoint (p1 p2 : Int × Int) (w h : Int) : Prop :=
  p1.1 + w ≤ p2.1 ∨ p2.1 + w ≤ p1.1 ∨ p1.2 + h ≤ p2.2 ∨ p2.2 + h ≤ p1.2

instance (p1 p2 : Int × Int) (w h : Int) :
    Decidable (boxesDisjoint p1 p2 w h) := by
  unfold boxesDisjoint; infer_instance

/-! ## Raster images and numpy slice semantics

An image is a list of rows; a row is a list of pixels; a pixel is the
list of its channel values (3 for BGR, 4 for BGRA), each a rational
standing for the exact value of the `uint8`/float arithmetic. -/

/-- Raster image: rows × columns × channels. -/
abbrev Img := List (List (List ℚ))

/-- Number of columns (length of the first row), `shape[1]`. -/
def colsOf (img : Img) : Nat := (img.headD []).length

/-- Number of channels of the first pixel, `shape[2]`. -/
def chOf (img : Img) : Nat := ((img.headD []).headD []).length

/-- Normalization of one endpoint of a step-1 numpy slice `l[a:b]` on an
axis of length `n`: negative indices count from the end, then clamp to
`[0, n]`. -/
def npSliceIdx (n : Nat) (i : Int) : Nat :=
  if i < 0 then ((n : Int) + i).toNat else min i.toNat n

/-- Content of `np.uint8` truncation applied to a nonnegative float (the
alpha-blending path converts with `.astype(np.uint8)`, which truncates
toward zero and wraps modulo 256). -/
def toU8trunc (q : ℚ) : ℚ := ((pyInt q).emod 256 : Int)

/-- Content of `cv2.saturate_cast<uchar>` used by `cv2.addWeighted`:
round to nearest and clamp to `[0, 255]`. -/
def satU8 (q : ℚ) : ℚ := max 0 (min 255 (round q : Int))

/-- Per-pixel alpha blend of the 4-channel overlay path of
`overlay_image`: `α` is the overlay pixel alpha scaled by the global
`alpha`; channels 0–2 get `α·fg + (1−α)·bg` truncated to `uint8`, any
further background channel is left unchanged. -/
def blendPixel (alpha : ℚ) (p q : List ℚ) : List ℚ :=
  let a := q.getD 3 0 / 255 * alpha
  p.mapIdx (fun c v =>
    if c < 3 then toU8trunc (a * q.getD c 0 + (1 - a) * v) else v)

/-- Per-pixel content of `cv2.addWeighted(bg_roi, 1 - alpha, overlay,
alpha, 0)`. -/
def addWeightedPixel (alpha : ℚ) (p q : List ℚ) : List ℚ :=
  List.zipWith (fun a b => satU8 ((1 - alpha) * a + alpha * b)) p q

/-- Overwrites the block of `img` whose top-left corner is at row `rs`,
column `cs` with `f bgPixel blkPixel` over the extent of `blk` (callers
guarantee the block fits there). -/
def writeBlock (img : Img) (blk : Img) (rs cs : Nat)
    (f : List ℚ → List ℚ → List ℚ) : Img :=
  img.take rs ++
    (List.zipWith
      (fun bgRow ovRow =>
        bgRow.take cs ++
          List.zipWith f ((bgRow.drop cs).take ovRow.length) ovRow ++
          bgRow.drop (cs + ovRow.length))
      ((img.drop rs).take blk.length) blk) ++
    img.drop (rs + blk.length)

/-! ## Overlay compositing (`ImageProcessor.overlay_image`) -/

/-- Embeds `src/services/image_processor.py ImageProcessor.overlay_image`.
The guard returns an unmodified copy when the overlay extends past the
bottom or right edge (`y + h > H or x + w > W`); negative coordinates
pass the guard and are then interpreted by numpy slice normalization, so
the region `result[y:y+h, x:x+w]` can be empty or wrapped.  `none`
models the raises: in the 4-channel path, numpy broadcast failure when
the region shape does not match the overlay (with region extent `e ≤
size` per axis, the blend succeeds exactly when `e = size` or
`size = 1`, a zero-extent region broadcasting a length-1 axis to
nothing), and `IndexError` on `bg_roi[:, :, c]`, `c < 3`, when the
background has fewer than 3 channels; in the 3-channel path,
`cv2.addWeighted` requires its two arrays to have the same size and
the same type, hence also equal channel counts. -/
def overlay_image (background overlay : Img) (x y : Int) (alpha : ℚ) :
    Option Img :=
  let result := background
  let hgt := overlay.length
  let wdt := colsOf overlay
  let H := background.length
  let W := colsOf background
  if y + (hgt : Int) > (H : Int) ∨ x + (wdt : Int) > (W : Int) then
    some result
  else
    let rs := npSliceIdx H y
    let re := npSliceIdx H (y + hgt)
    let cs := npSliceIdx W x
    let ce := npSliceIdx W (x + wdt)
    let rh := re - rs
    let rw := ce - cs
    if chOf overlay = 4 then
      if 3 ≤ chOf background then
        if (rh = hgt ∨ hgt = 1) ∧ (rw = wdt ∨ wdt = 1) then
          if rh = hgt ∧ rw = wdt then
            some (writeBlock result overlay rs cs (blendPixel alpha))
          else some result
        else none
      else none
    else
      if chOf background = chOf overlay then
        if rh = hgt ∧ rw = wdt then
          some (writeBlock result overlay rs cs (addWeightedPixel alpha))
        else none
      else none

/-- The overlay placed at `(x, y)` lies entirely within the background
bounds. -/
def overlayFits (background overlay : Img) (x y : Int) : Prop :=
  0 ≤ x ∧ 0 ≤ y ∧
    x + (colsOf overlay : Int) ≤ (colsOf background : Int) ∧
    y + (overlay.length : Int) ≤ (background.length : Int)

instance (background overlay : Img) (x y : Int) :
    Decidable (overlayFits background overlay x y) := by
  unfold overlayFits; infer_instance

/-- Embeds the numpy in-place slice assignment
`frame[y:y+h, x:x+w] = blk` of `_add_speaker_to_frame`: `none` is the
`ValueError` raise on a shape mismatch (the assignment happens before
any mutation, so a raise leaves the target unchanged). -/
def npAssign (img : Img) (blk : Img) (x y : Int) : Option Img :=
  let H := img.length
  let W := colsOf img
  let h := blk.length
  let w := colsOf blk
  let rs := npSliceIdx H y
  let re := npSliceIdx H (y + h)
  let cs := npSliceIdx W x
  let ce := npSliceIdx W (x + w)
  let rh := re - rs
  let rw := ce - cs
  if (rh = h ∨ h = 1) ∧ (rw = w ∨ w = 1) then
    if rh = h ∧ rw = w then
      some (writeBlock img blk rs cs (fun _ q => q))
    else some img
  else none

/-! ## Reference store: arrays as mutable buffers

The in-place numpy mutations of `compose_frame` and `overlay_image` are
made explicit by a store of numbered buffers: `alloc` models creating a
fresh array (`.copy()`, `cv2.resize`, plate rendering), `writeRef` an
in-place write to an existing buffer. -/

/-- A heap of image buffers: contents plus the next fresh reference. -/
structure Store where
  mem : Nat → Img
  next : Nat

/-- Allocate a fresh buffer holding `img`. -/
def alloc (img : Img) (st : Store) : Nat × Store :=
  (st.next, ⟨Function.update st.mem st.next img, st.next + 1⟩)

/-- Overwrite the buffer `r` in place. -/
def writeRef (r : Nat) (img : Img) (st : Store) : Store :=
  ⟨Function.update st.mem r img, st.next⟩

/-- Store-level `overlay_image`: `result = background.copy()` allocates
a fresh buffer; every subsequent write of the method targets that copy,
so a raise (`none`) leaves every pre-existing buffer untouched.  The
overlay argument is only read, so it is passed by value. -/
def overlayImageSt (st : Store) (bgRef : Nat) (overlay : Img)
    (x y : Int) (alpha : ℚ) : Option Nat × Store :=
  let bg := st.mem bgRef
  let (resRef, st1) := alloc bg st
  match overlay_image bg overlay x y alpha with
  | none => (none, st1)
  | some img => (some resRef, writeRef resRef img st1)

/-- Content oracles for the external renderers whose pixel output the
repository does not compute itself: `cv2.resize` (background and
letterbox scaling) and the PIL name-plate rendering converted to BGRA. -/
structure ExternalRender where
  resize : Img → Int → Int → Img
  letterbox : Img → Int → Int → Img
  plate : String → Int → Img

/-- Embeds `src/services/composition_engine.py
CompositionEngine._add_name_plate` over the store: renders the plate,
places it 5 px below the speaker box, centered, and overlays it when it
fits vertically and has nonnegative coordinates. -/
def addNamePlateSt (R : ExternalRender) (sc : SpeakerConfig)
    (ec : ExportConfig) (st : Store) (frameRef : Nat)
    (speaker_x speaker_y : Int) (name : String) : Option Nat × Store :=
  let plate_np := R.plate name sc.width
  let plate_height := (plate_np.length : Int)
  let plate_y := speaker_y + sc.height + 5
  if plate_y + plate_height ≤ ec.height then
    let plate_width := (colsOf plate_np : Int)
    let plate_x := speaker_x + (sc.width - plate_width).fdiv 2
    if plate_x ≥ 0 ∧ plate_y ≥ 0 then
      overlayImageSt st frameRef plate_np plate_x plate_y 1
    else (some frameRef, st)
  else (some frameRef, st)

/-- Embeds `src/services/composition_engine.py
CompositionEngine._add_speaker_to_frame` over the store: letterboxes the
speaker frame, writes it into the frame buffer in place when the box
passes the bottom/right bound check, then adds the name plate for a
nonempty name.  A raised slice-assignment error propagates as `none`. -/
def addSpeakerToFrameSt (R : ExternalRender) (sc : SpeakerConfig)
    (ec : ExportConfig) (st : Store) (frameRef : Nat)
    (speaker_frame : Img) (position : Int × Int) (name : String) :
    Option Nat × Store :=
  let x := position.1
  let y := position.2
  let speaker_resized := R.letterbox speaker_frame sc.width sc.height
  if y + sc.height ≤ ec.height ∧ x + sc.width ≤ ec.width then
    match npAssign (st.mem frameRef) speaker_resized x y with
    | none => (none, st)
    | some newImg =>
      let st2 := writeRef frameRef newImg st
      if name ≠ "" then addNamePlateSt R sc ec st2 frameRef x y name
      else (some frameRef, st2)
  else (some frameRef, st)

/-- Embeds `src/services/composition_engine.py
CompositionEngine.compose_frame` over the store: `cv2.resize` of the
background allocates a fresh buffer, `.copy()` a second one; both
speaker passes write only that copy (or fresh overlay results), never
the caller's background buffer.  `none` propagates a raise. -/
def compose_frame (R : ExternalRender) (sc : SpeakerConfig)
    (ec : ExportConfig) (st : Store) (bgRef : Nat)
    (speaker1_frame speaker2_frame : Option Img)
    (speaker1_name speaker2_name : String) : Option Nat × Store :=
  let background := st.mem bgRef
  let background_resized := R.resize background ec.width ec.height
  let a1 := alloc background_resized st
  let a2 := alloc (a1.2.mem a1.1) a1.2
  let resultRef := a2.1
  let st2 := a2.2
  let positions := calculateSpeakerPositions sc ec
  let step1 :=
    match speaker1_frame with
    | none => (some resultRef, st2)
    | some f1 =>
      addSpeakerToFrameSt R sc ec st2 resultRef f1 positions.1
        speaker1_name
  match step1 with
  | (none, st3) => (none, st3)
  | (some r1, st3) =>
    match speaker2_frame with
    | none => (some r1, st3)
    | some f2 =>
      addSpeakerToFrameSt R sc ec st3 r1 f2 positions.2 speaker2_name

/-! ## Aspect-preserving resize (`VideoProcessor.resize_with_aspect_ratio`) -/

/-- Geometry of the letterboxed raster built by
`resize_with_aspect_ratio`: the canvas `np.zeros((target_height,
target_width, 3))` and the scaled image of size `new_width × new_height`
placed at `(x_offset, y_offset)`. -/
structure ResizeResult where
  outW : Nat
  outH : Nat
  newW : Nat
  newH : Nat
  xOff : Nat
  yOff : Nat
deriving DecidableEq, Repr

/-- Embeds `src/services/video_processor.py
VideoProcessor.resize_with_aspect_ratio` at the geometry level (the
pixel content of the Lanczos rescale is produced by the external cv2
library).  Float arithmetic is exact in `ℚ`; `int()` on the nonnegative
products is `Nat` floor division.  `none` models the raised errors:
`h = 0` or `target_height = 0` raise `ZeroDivisionError`, and a computed
dimension of 0 makes `cv2.resize` raise (empty `dsize` with zero scale
factors). -/
def resize_with_aspect_ratio (h w target_width target_height : Nat) :
    Option ResizeResult :=
  if h = 0 ∨ target_height = 0 then none
  else
    let dims :=
      if ((target_width : ℚ) / target_height > (w : ℚ) / h) then
        (target_height * w / h, target_height)
      else (target_width, target_width * h / w)
    if dims.1 = 0 ∨ dims.2 = 0 then none
    else some ⟨target_width, target_height, dims.1, dims.2,
      (target_width - dims.1) / 2, (target_height - dims.2) / 2⟩

/-! ## Progress reporting (`ExportService.export_video` and
`_create_video_frames`) -/

/-- The progress value emitted after writing frame `i` (0-based):
`min(10 + ((i + 1) / max_frames) * 80, 90)`. -/
def frameProgress (max_frames i : Nat) : ℚ :=
  min (10 + ((i + 1 : Nat) : ℚ) / (max_frames : ℚ) * 80) 90

/-- The sequence of progress percentages `export_video` reports through
`progress_cb`, in order: 2 on entry; 10 after audio extraction (not
reached if loading/probing raised: `audioOk = false`); one value per
written frame — all `max_frames` of them when the frame phase completes
(`framesOk`), the first `framesBeforeAbort` if it raised; 92 before the
mux phase; 100 only when the mux phase returned success (`muxOk`). -/
def exportProgressReports (max_frames framesBeforeAbort : Nat)
    (audioOk framesOk muxOk : Bool) : List ℚ :=
  2 ::
    (if audioOk then
      10 ::
        ((List.range (if framesOk then max_frames else framesBeforeAbort)).map
            (frameProgress max_frames) ++
          (if framesOk then 92 :: (if muxOk then [100] else []) else []))
    else [])

/-! ## Concrete instances used by witnesses and counterexamples -/

/-- A concrete codec configuration (the repository defaults). -/
def cfg0 : VideoCodecConfig := ⟨"libx264", "fast", 23, "5000k"⟩

/-- The NVIDIA flag list `_get_video_codec_params` produces for `cfg0`. -/
def nvencPs0 : List String :=
  ["-c:v", "h264_nvenc", "-preset", "fast", "-rc", "vbr",
   "-cq", "23", "-b:v", "5000k", "-maxrate", "5000k", "-bufsize", "10000k"]

/-- An oracle where every ffmpeg invocation fails and rename succeeds. -/
def envAllFail : MuxEnv := ⟨fun _ => false, true⟩

/-- A concrete export configuration with a 100 × 100 output frame. -/
def ec100 : ExportConfig := ⟨100, 100, 30, cfg0, ⟨true, none⟩⟩

/-- A concrete export configuration with the default 1920 × 1080 frame. -/
def ec1080 : ExportConfig := ⟨1920, 1080, 30, cfg0, ⟨true, none⟩⟩

/-- A 1 × 4 black BGR image (one row of four pixels). -/
def bg14 : Img := [[[0, 0, 0], [0, 0, 0], [0, 0, 0], [0, 0, 0]]]

/-- A 1 × 2 white BGR overlay. -/
def ov12 : Img := [[[255, 255, 255], [255, 255, 255]]]

/-! # Theorems -/

/-! ## Supporting lemmas on audio buffers -/

theorem padTruncate_length (target : Nat) (xs : List ℚ) :
    (padTruncate target xs).length = target := by
  simp [padTruncate]
  omega

theorem padTruncate_getD (target i : Nat) (xs : List ℚ) (h : i < target) :
    (padTruncate target xs).getD i 0 = xs.getD i 0 := by
  unfold padTruncate
  rcases Nat.lt_or_ge i xs.length with hi | hi
  · rw [List.getD_eq_getElem?_getD, List.getElem?_take_of_lt h,
      List.getElem?_append_left hi, ← List.getD_eq_getElem?_getD]
  · rw [List.getD_eq_getElem?_getD, List.getElem?_take_of_lt h,
      List.getElem?_append_right hi, List.getD_eq_getElem?_getD xs]
    rw [List.getElem?_replicate]
    have hx : xs[i]? = none := List.getElem?_eq_none hi
    rw [hx]
    by_cases hlt : i - xs.length < target - xs.length <;> simp [hlt]

theorem zipWith_add_getD (as bs : List ℚ) (i : Nat) (h1 : i < as.length)
    (h2 : i < bs.length) :
    (List.zipWith (· + ·) as bs).getD i 0 = as.getD i 0 + bs.getD i 0 := by
  induction as generalizing bs i with
  | nil => simp at h1
  | cons a as ih =>
    cases bs with
    | nil => simp at h2
    | cons b bs =>
      cases i with
      | zero => simp
      | succ n =>
        simp only [List.zipWith_cons_cons, List.getD_cons_succ]
        exact ih bs n (by simpa using h1) (by simpa using h2)

theorem replicate_getD (t i : Nat) : (List.replicate t (0 : ℚ)).getD i 0 = 0 := by
  rcases Nat.lt_or_ge i t with h | h
  · rw [List.getD_eq_getElem?_getD, List.getElem?_replicate]
    simp [h]
  · rw [List.getD_eq_getElem?_getD,
      List.getElem?_eq_none (by simpa using h)]
    rfl

theorem mixRawSum_length (a1 a2 : Option (List ℚ)) (target : Nat) :
    (mixRawSum a1 a2 target).length = target := by
  rcases a1 with _ | xs <;> rcases a2 with _ | ys <;>
    simp [mixRawSum, padTruncate_length]

theorem mixRawSum_getD (a1 a2 : Option (List ℚ)) (target i : Nat)
    (h : i < target) :
    (mixRawSum a1 a2 target).getD i 0 = bufVal a1 i + bufVal a2 i := by
  rcases a1 with _ | xs <;> rcases a2 with _ | ys <;>
    simp only [mixRawSum, bufVal]
  · simp [replicate_getD]
  · rw [zipWith_add_getD _ _ i (by simpa using h)
      (by simpa [padTruncate_length] using h)]
    rw [replicate_getD, padTruncate_getD _ _ _ h]
  · rw [zipWith_add_getD _ _ i (by simpa using h)
      (by simpa [padTruncate_length] using h)]
    rw [replicate_getD, padTruncate_getD _ _ _ h]
    ring
  · rw [zipWith_add_getD _ _ i
      (by simpa [padTruncate_length] using h)
      (by simpa [padTruncate_length] using h),
      zipWith_add_getD _ _ i (by simpa using h)
      (by simpa [padTruncate_length] using h)]
    rw [replicate_getD, padTruncate_getD _ _ _ h,
      padTruncate_getD _ _ _ h]
    ring

theorem maxAbs_nonneg (xs : List ℚ) : 0 ≤ maxAbs xs := by
  induction xs with
  | nil => simp [maxAbs]
  | cons x xs ih => simp only [maxAbs]; positivity

theorem maxAbs_map_mul_right (xs : List ℚ) (c : ℚ) (hc : 0 ≤ c) :
    maxAbs (xs.map fun v => v * c) = maxAbs xs * c := by
  induction xs with
  | nil => simp [maxAbs]
  | cons x xs ih =>
    simp only [List.map_cons, maxAbs, ih, abs_mul, abs_of_nonneg hc,
      max_mul_of_nonneg _ _ hc]

theorem maxAbs_eq_zero_mem (xs : List ℚ) (h : maxAbs xs = 0) :
    ∀ v ∈ xs, v = 0 := by
  induction xs with
  | nil => simp
  | cons x xs ih =>
    intro v hv
    simp only [maxAbs] at h
    have hx : |x| ≤ 0 := le_of_le_of_eq (le_max_left _ _) h
    have hxs : maxAbs xs ≤ 0 := le_of_le_of_eq (le_max_right _ _) h
    rcases List.mem_cons.mp hv with rfl | hv
    · exact abs_nonpos_iff.mp hx
    · exact ih (le_antisymm hxs (maxAbs_nonneg xs)) v hv

theorem maxAbs_normalize (xs : List ℚ) (p : ℚ) (hp : 0 < p)
    (h : maxAbs xs = p) :
    maxAbs (xs.map fun v => v / p * 0.8) = 0.8 := by
  have hfun : (fun v : ℚ => v / p * 0.8) = fun v => v * (0.8 / p) := by
    funext v
    field_simp
  rw [hfun, maxAbs_map_mul_right _ _ (by positivity), h]
  field_simp

/-- C2 (code bug): the claim states the spec's intent — detection
failure is never fatal and the instance is still constructed — but the
code contradicts it: in every branch that should resolve to the
software codec (acceleration disabled, failed encoder query, no
hardware encoder listed) the assignment of `"libx264"` to `gpu_codec`
violates the pydantic Literal under `validate_assignment=True`, so
`_detect_gpu_codec` raises `ValidationError` (`none`) and construction
fails; only the three hardware branches resolve. -/
theorem detect_gpu_codec_validation_bug :
    detect_gpu_codec false (.ok true true true) = none ∧
    detect_gpu_codec true .failed = none ∧
    detect_gpu_codec true (.ok false false false) = none ∧
    detect_gpu_codec true (.ok true false false) = some "h264_nvenc" ∧
    detect_gpu_codec true (.ok false true false) = some "h264_qsv" ∧
    detect_gpu_codec true (.ok false false true) = some "h264_vaapi" := by
  decide

/-- C9 counterexample: for the NVIDIA encoder with bitrate `"5000k"`,
the flag list passes `-maxrate 5000k` — the configured bitrate itself —
while 2 × bitrate would be `"10000k"`; so max-rate is not derived as
2 × bitrate as the claim states. -/
theorem nvenc_maxrate_not_doubled :
    getVideoCodecParams cfg0 "h264_nvenc" = some nvencPs0 ∧
    flagValue "-maxrate" nvencPs0 = some "5000k" ∧
    ("5000k" : String) ≠ "10000k" := by decide

/-- C9 amended: when the resolved codec is `h264_nvenc` and the bitrate
string parses, the flag list passes the quality factor via `-cq`, the
configured bitrate via `-b:v`, a max-rate equal to the configured
bitrate, and a buffer size of 2 × the configured bitrate. -/
theorem nvenc_codec_params (cfg : VideoCodecConfig) (n : Nat)
    (h : pyIntOfStr (stripK cfg.bitrate) = some n) :
    ∃ ps, getVideoCodecParams cfg "h264_nvenc" = some ps ∧
      flagValue "-cq" ps = some (toString cfg.crf) ∧
      flagValue "-b:v" ps = some cfg.bitrate ∧
      flagValue "-maxrate" ps = some cfg.bitrate ∧
      flagValue "-bufsize" ps = some (toString (n * 2) ++ "k") := by
  refine ⟨["-c:v", "h264_nvenc", "-preset", "fast", "-rc", "vbr",
           "-cq", toString cfg.crf, "-b:v", cfg.bitrate,
           "-maxrate", cfg.bitrate, "-bufsize", toString (n * 2) ++ "k"],
          ?_, ?_, ?_, ?_, ?_⟩ <;>
    simp [getVideoCodecParams, h, flagValue]

/-- Witness for C9 amended at `cfg0`. -/
theorem nvenc_codec_params_witness :
    pyIntOfStr (stripK cfg0.bitrate) = some 5000 ∧
    (∃ ps, getVideoCodecParams cfg0 "h264_nvenc" = some ps ∧
      flagValue "-cq" ps = some (toString cfg0.crf) ∧
      flagValue "-b:v" ps = some cfg0.bitrate ∧
      flagValue "-maxrate" ps = some cfg0.bitrate ∧
      flagValue "-bufsize" ps = some (toString (5000 * 2) ++ "k")) :=
  ⟨by decide, nvenc_codec_params cfg0 5000 (by decide)⟩

/-- C4 counterexample: for `sr = 10` and `d = 27/100` we have
`d · sr = 2.7`; the mixer truncates (`int`), producing a 2-sample
buffer, while `round(d · sr) = 3` — the claimed length law fails. -/
theorem mix_audio_round_cex :
    mix_audio (some [1]) none 10 (27/100) = .buffer [4/5, 0] ∧
    round ((27 : ℚ) / 100 * 10) = 3 ∧
    (([4/5, (0 : ℚ)] : List ℚ).length : Int) ≠ 3 := by
  have hq : (27 : ℚ) / 100 * 10 = 27 / 10 := by norm_num
  have hfl : pyInt ((27 : ℚ) / 100 * 10) = 2 := by
    rw [hq]
    norm_num [pyInt, Int.floor_eq_iff]
  refine ⟨?_, ?_, by norm_num⟩
  · simp only [mix_audio, hfl]
    norm_num [mixRawSum, padTruncate, maxAbs, max_def,
      List.zipWith, List.replicate]
  · rw [hq]
    norm_num [round_eq, Int.floor_eq_iff]

/-- C4 amended: for inputs not both absent and a positive (truncated)
target length `int(d · sr)`, `mix_audio` returns a buffer of exactly
that length — truncation, not rounding — and before summation each input
contributes its sample at `i` when present and in range, zero otherwise
(right-zero-padding and truncation to the target length). -/
theorem mix_audio_length_trunc (a1 a2 : Option (List ℚ)) (sr d : ℚ)
    (hne : ¬ (a1 = none ∧ a2 = none))
    (ht : (pyInt (d * sr)).toNat ≠ 0) :
    ∃ out, mix_audio a1 a2 sr d = .buffer out ∧
      out.length = (pyInt (d * sr)).toNat ∧
      ∀ i < (pyInt (d * sr)).toNat,
        (mixRawSum a1 a2 ((pyInt (d * sr)).toNat)).getD i 0 =
          bufVal a1 i + bufVal a2 i := by
  by_cases hp : 0 < maxAbs (mixRawSum a1 a2 ((pyInt (d * sr)).toNat))
  · refine ⟨(mixRawSum a1 a2 ((pyInt (d * sr)).toNat)).map
      (fun v => v / maxAbs (mixRawSum a1 a2 ((pyInt (d * sr)).toNat)) * 0.8),
      ?_, by simp [mixRawSum_length],
      fun i hi => mixRawSum_getD a1 a2 _ i hi⟩
    rcases a1 with _ | xs <;> rcases a2 with _ | ys
    · exact absurd ⟨rfl, rfl⟩ hne
    all_goals simp only [mix_audio, if_neg ht, if_pos hp]
  · refine ⟨mixRawSum a1 a2 ((pyInt (d * sr)).toNat), ?_,
      mixRawSum_length a1 a2 _,
      fun i hi => mixRawSum_getD a1 a2 _ i hi⟩
    rcases a1 with _ | xs <;> rcases a2 with _ | ys
    · exact absurd ⟨rfl, rfl⟩ hne
    all_goals simp only [mix_audio, if_neg ht, if_neg hp]

/-- Witness for C4 amended: one 1-sample input at `sr = 10`,
`d = 27/100`, target length `int(2.7) = 2`. -/
theorem mix_audio_length_trunc_witness :
    ¬ ((some [(1 : ℚ)] : Option (List ℚ)) = none ∧
        (none : Option (List ℚ)) = none) ∧
    (pyInt ((27 / 100 : ℚ) * 10)).toNat ≠ 0 ∧
    (∃ out, mix_audio (some [1]) none 10 (27 / 100) = .buffer out ∧
      out.length = (pyInt ((27 / 100 : ℚ) * 10)).toNat ∧
      ∀ i < (pyInt ((27 / 100 : ℚ) * 10)).toNat,
        (mixRawSum (some [1]) none
            ((pyInt ((27 / 100 : ℚ) * 10)).toNat)).getD i 0 =
          bufVal (some [1]) i + bufVal none i) :=
  ⟨by simp, by norm_num [pyInt, Int.floor_eq_iff],
   mix_audio_length_trunc (some [1]) none 10 (27 / 100) (by simp)
     (by norm_num [pyInt, Int.floor_eq_iff])⟩

/-- C5 counterexample: mixing two absent inputs returns the Python
`None` (`absent`), not an all-zero buffer of the correct length. -/
theorem mix_audio_both_absent_cex :
    mix_audio none none 1 1 = .absent ∧
    MixOutcome.absent ≠ .buffer [0] := by decide

/-- C5 amended: both inputs absent gives an absent result (no buffer,
no error); otherwise, for a positive target length, a summed mix with
positive peak is normalized to peak absolute amplitude exactly `0.8`
(exact in `ℚ`), and an all-silent summed mix is returned as the all-zero
buffer of the correct length. -/
theorem mix_audio_normalization (a1 a2 : Option (List ℚ)) (sr d : ℚ) :
    mix_audio none none sr d = .absent ∧
    (¬ (a1 = none ∧ a2 = none) → (pyInt (d * sr)).toNat ≠ 0 →
      (0 < maxAbs (mixRawSum a1 a2 ((pyInt (d * sr)).toNat)) →
        ∃ out, mix_audio a1 a2 sr d = .buffer out ∧
          maxAbs out = 0.8 ∧ out.length = (pyInt (d * sr)).toNat) ∧
      (maxAbs (mixRawSum a1 a2 ((pyInt (d * sr)).toNat)) = 0 →
        ∃ out, mix_audio a1 a2 sr d = .buffer out ∧
          out.length = (pyInt (d * sr)).toNat ∧ ∀ v ∈ out, v = 0)) := by
  refine ⟨rfl, fun hne ht => ⟨fun hp => ?_, fun hz => ?_⟩⟩
  · refine ⟨_, ?_, maxAbs_normalize _ _ hp rfl,
      by simp [mixRawSum_length]⟩
    rcases a1 with _ | xs <;> rcases a2 with _ | ys
    · exact absurd ⟨rfl, rfl⟩ hne
    all_goals simp only [mix_audio, if_neg ht, if_pos hp]
  · have hnp : ¬ 0 < maxAbs (mixRawSum a1 a2 ((pyInt (d * sr)).toNat)) := by
      rw [hz]
      exact lt_irrefl 0
    refine ⟨_, ?_, mixRawSum_length a1 a2 _, maxAbs_eq_zero_mem _ hz⟩
    rcases a1 with _ | xs <;> rcases a2 with _ | ys
    · exact absurd ⟨rfl, rfl⟩ hne
    all_goals simp only [mix_audio, if_neg ht, if_neg hnp]

/-- Witness for C5 amended: a loud mix is scaled to peak `0.8`; a silent
present input yields the zero buffer. -/
theorem mix_audio_normalization_witness :
    (∃ out, mix_audio (some [1, 0]) none 2 1 = .buffer out ∧
      maxAbs out = 0.8 ∧ out.length = (pyInt ((1 : ℚ) * 2)).toNat) ∧
    (∃ out, mix_audio (some [0]) none 1 1 = .buffer out ∧
      out.length = (pyInt ((1 : ℚ) * 1)).toNat ∧ ∀ v ∈ out, v = 0) := by
  have h2 : (pyInt ((1 : ℚ) * 2)).toNat = 2 := by
    have h : pyInt ((1 : ℚ) * 2) = 2 := by norm_num [pyInt]
    rw [h]
    rfl
  have h1 : (pyInt ((1 : ℚ) * 1)).toNat = 1 := by
    have h : pyInt ((1 : ℚ) * 1) = 1 := by norm_num [pyInt]
    rw [h]
    rfl
  constructor
  · refine ((mix_audio_normalization (some [1, 0]) none 2 1).2 (by simp)
      (by rw [h2]; norm_num)).1 ?_
    rw [h2]
    norm_num [mixRawSum, padTruncate, maxAbs, max_def, List.zipWith,
      List.replicate]
  · refine ((mix_audio_normalization (some [0]) none 1 1).2 (by simp)
      (by rw [h1]; norm_num)).2 ?_
    rw [h1]
    norm_num [mixRawSum, padTruncate, maxAbs, max_def, List.zipWith,
      List.replicate]

/-- C1: if the first encode invocation (resolved, possibly hardware,
codec) fails, the mux phase retries exactly once, with CPU `libx264` and
the same configured preset, quality factor and bitrate; if that retry
also fails, the output file is the pre-mux intermediate video verbatim
(its exact bytes, audio dropped) and the phase still reports success. -/
theorem encode_retry_and_raw_fallback (cfg : VideoCodecConfig)
    (gpu_codec : String) (hasAudio : Bool) (env : MuxEnv)
    (tv ta op : String) (tempBytes : List Nat) (ps : List String)
    (hps : getVideoCodecParams cfg gpu_codec = some ps)
    (hfail : env.run (muxPrimaryCmd ps hasAudio tv ta op) = false) :
    (combineVideoAudio cfg gpu_codec hasAudio env tv ta op
        tempBytes).attempts =
      [muxPrimaryCmd ps hasAudio tv ta op,
       muxFallbackCmd cfg hasAudio tv ta op] ∧
    flagValue "-c:v" (cpuVideoFlags cfg) = some "libx264" ∧
    flagValue "-preset" (cpuVideoFlags cfg) = some cfg.preset ∧
    flagValue "-crf" (cpuVideoFlags cfg) = some (toString cfg.crf) ∧
    flagValue "-b:v" (cpuVideoFlags cfg) = some cfg.bitrate ∧
    (env.run (muxFallbackCmd cfg hasAudio tv ta op) = false →
      env.renameOk = true →
      (combineVideoAudio cfg gpu_codec hasAudio env tv ta op
          tempBytes).success = true ∧
      (combineVideoAudio cfg gpu_codec hasAudio env tv ta op
          tempBytes).output = some (.bytes tempBytes)) := by
  refine ⟨?_, by simp [cpuVideoFlags, flagValue],
    by simp [cpuVideoFlags, flagValue], by simp [cpuVideoFlags, flagValue],
    by simp [cpuVideoFlags, flagValue], ?_⟩
  · simp only [combineVideoAudio, hps, hfail]
    rcases h2 : env.run (muxFallbackCmd cfg hasAudio tv ta op)
    · rcases h3 : env.renameOk <;> simp [h2, h3]
    · simp [h2]
  · intro h2 h3
    simp [combineVideoAudio, hps, hfail, h2, h3]

/-- Witness for C1: both encode attempts fail for a concrete
configuration; the result is a success whose output is the intermediate
bytes. -/
theorem encode_retry_and_raw_fallback_witness :
    getVideoCodecParams cfg0 "h264_nvenc" = some nvencPs0 ∧
    envAllFail.run (muxPrimaryCmd nvencPs0 true "t.mp4" "a.wav" "o.mp4") =
      false ∧
    ((combineVideoAudio cfg0 "h264_nvenc" true envAllFail "t.mp4" "a.wav"
        "o.mp4" [7, 7]).attempts =
      [muxPrimaryCmd nvencPs0 true "t.mp4" "a.wav" "o.mp4",
       muxFallbackCmd cfg0 true "t.mp4" "a.wav" "o.mp4"] ∧
     flagValue "-c:v" (cpuVideoFlags cfg0) = some "libx264" ∧
     flagValue "-preset" (cpuVideoFlags cfg0) = some cfg0.preset ∧
     flagValue "-crf" (cpuVideoFlags cfg0) = some (toString cfg0.crf) ∧
     flagValue "-b:v" (cpuVideoFlags cfg0) = some cfg0.bitrate ∧
     (envAllFail.run (muxFallbackCmd cfg0 true "t.mp4" "a.wav" "o.mp4") =
        false →
      envAllFail.renameOk = true →
      (combineVideoAudio cfg0 "h264_nvenc" true envAllFail "t.mp4" "a.wav"
          "o.mp4" [7, 7]).success = true ∧
      (combineVideoAudio cfg0 "h264_nvenc" true envAllFail "t.mp4" "a.wav"
          "o.mp4" [7, 7]).output = some (.bytes [7, 7]))) :=
  ⟨by decide, rfl,
   encode_retry_and_raw_fallback cfg0 "h264_nvenc" true envAllFail
     "t.mp4" "a.wav" "o.mp4" [7, 7] nvencPs0 (by decide) rfl⟩

/-- C3 counterexample: output frame 100 × 100, speaker box 80 × 50
(width ≤ output width, height ≤ output height, no fixed position): the
auto-centered boxes overlap and speaker 1 starts at x = −15, outside the
frame — the claim fails for widths above half the output width. -/
theorem speaker_positions_cex :
    ¬ (boxesDisjoint (calculateSpeakerPositions ⟨80, 50, none⟩ ec100).1
         (calculateSpeakerPositions ⟨80, 50, none⟩ ec100).2 80 50 ∧
       boxWithin (calculateSpeakerPositions ⟨80, 50, none⟩ ec100).1
         80 50 100 100 ∧
       boxWithin (calculateSpeakerPositions ⟨80, 50, none⟩ ec100).2
         80 50 100 100) := by decide

/-- C3 amended: with no fixed position, positive box dimensions,
height ≤ output height and width ≤ ⌊output width / 2⌋, the two
auto-centered boxes are disjoint and lie fully inside the frame. -/
theorem speaker_positions_disjoint_within (sc : SpeakerConfig)
    (ec : ExportConfig) (hpos : sc.position = none)
    (hw : 0 < sc.width) (_hh : 0 < sc.height)
    (hwle : sc.width ≤ ec.width.fdiv 2) (hhle : sc.height ≤ ec.height) :
    boxesDisjoint (calculateSpeakerPositions sc ec).1
      (calculateSpeakerPositions sc ec).2 sc.width sc.height ∧
    boxWithin (calculateSpeakerPositions sc ec).1 sc.width sc.height
      ec.width ec.height ∧
    boxWithin (calculateSpeakerPositions sc ec).2 sc.width sc.height
      ec.width ec.height := by
  have h2 : (0 : Int) ≤ 2 := by norm_num
  simp only [calculateSpeakerPositions, hpos, boxesDisjoint, boxWithin,
    Int.fdiv_eq_ediv _ h2] at *
  omega

/-- Witness for C3 amended: the default 400 × 300 speaker box in a
1920 × 1080 frame. -/
theorem speaker_positions_disjoint_within_witness :
    ((⟨400, 300, none⟩ : SpeakerConfig).position = none) ∧
    (boxesDisjoint (calculateSpeakerPositions ⟨400, 300, none⟩ ec1080).1
       (calculateSpeakerPositions ⟨400, 300, none⟩ ec1080).2 400 300 ∧
     boxWithin (calculateSpeakerPositions ⟨400, 300, none⟩ ec1080).1
       400 300 1920 1080 ∧
     boxWithin (calculateSpeakerPositions ⟨400, 300, none⟩ ec1080).2
       400 300 1920 1080) :=
  ⟨rfl, speaker_positions_disjoint_within ⟨400, 300, none⟩ ec1080 rfl
    (by decide) (by decide) (by decide) (by decide)⟩

/-! ## Supporting lemmas on resize geometry and progress values -/

theorem frameProgress_ge (m i : Nat) : 10 ≤ frameProgress m i := by
  unfold frameProgress
  refine le_min ?_ (by norm_num)
  have h : (0 : ℚ) ≤ ((i + 1 : Nat) : ℚ) / (m : ℚ) * 80 := by positivity
  linarith

theorem frameProgress_le (m i : Nat) : frameProgress m i ≤ 90 :=
  min_le_right _ _

theorem frameProgress_mono (m : Nat) {i j : Nat} (hij : i ≤ j) :
    frameProgress m i ≤ frameProgress m j := by
  unfold frameProgress
  apply min_le_min _ le_rfl
  rcases Nat.eq_zero_or_pos m with hm | hm
  · subst hm
    simp
  · have hmq : (0 : ℚ) < (m : ℚ) := by exact_mod_cast hm
    have hc : ((i + 1 : Nat) : ℚ) ≤ ((j + 1 : Nat) : ℚ) := by
      exact_mod_cast Nat.succ_le_succ hij
    have hd := (div_le_div_iff_of_pos_right hmq).mpr hc
    linarith

theorem frames_ge_ten (m n : Nat) :
    ∀ x ∈ (List.range n).map (frameProgress m), (10 : ℚ) ≤ x := by
  intro x hx
  obtain ⟨i, _, rfl⟩ := List.mem_map.mp hx
  exact frameProgress_ge m i

theorem frames_le_ninety (m n : Nat) :
    ∀ x ∈ (List.range n).map (frameProgress m), x ≤ (90 : ℚ) := by
  intro x hx
  obtain ⟨i, _, rfl⟩ := List.mem_map.mp hx
  exact frameProgress_le m i

theorem frames_sorted (m n : Nat) :
    List.Pairwise (· ≤ ·) ((List.range n).map (frameProgress m)) :=
  (List.pairwise_le_range n).map (frameProgress m)
    (fun _ _ hab => frameProgress_mono m hab)

theorem progress_list_pairwise (m n : Nat) (tail : List ℚ)
    (htail : List.Pairwise (· ≤ ·) tail)
    (htail_ge : ∀ y ∈ tail, (92 : ℚ) ≤ y) :
    List.Pairwise (· ≤ ·)
      (2 :: 10 :: ((List.range n).map (frameProgress m) ++ tail)) := by
  refine List.pairwise_cons.mpr ⟨?_, List.pairwise_cons.mpr ⟨?_, ?_⟩⟩
  · intro b hb
    rcases List.mem_cons.mp hb with rfl | hb
    · norm_num
    rcases List.mem_append.mp hb with hb | hb
    · linarith [frames_ge_ten m n b hb]
    · linarith [htail_ge b hb]
  · intro b hb
    rcases List.mem_append.mp hb with hb | hb
    · exact frames_ge_ten m n b hb
    · linarith [htail_ge b hb]
  · refine List.pairwise_append.mpr ⟨frames_sorted m n, htail, ?_⟩
    intro x hx y hy
    have h1 := frames_le_ninety m n x hx
    have h2 := htail_ge y hy
    linarith

theorem progress_list_bounds (m n : Nat) (tail : List ℚ)
    (htb : ∀ y ∈ tail, (0 : ℚ) ≤ y ∧ y ≤ 100) :
    ∀ x ∈ 2 :: 10 :: ((List.range n).map (frameProgress m) ++ tail),
      (0 : ℚ) ≤ x ∧ x ≤ 100 := by
  intro x hx
  rcases List.mem_cons.mp hx with rfl | hx
  · norm_num
  rcases List.mem_cons.mp hx with rfl | hx
  · norm_num
  rcases List.mem_append.mp hx with hx | hx
  · constructor
    · linarith [frames_ge_ten m n x hx]
    · linarith [frames_le_ninety m n x hx]
  · exact htb x hx

theorem progress_list_mem_100 (m n : Nat) (tail : List ℚ) :
    ((100 : ℚ) ∈ 2 :: 10 :: ((List.range n).map (frameProgress m) ++ tail))
      ↔ (100 : ℚ) ∈ tail := by
  constructor
  · intro hx
    rcases List.mem_cons.mp hx with h2 | hx
    · exact absurd h2 (by norm_num)
    rcases List.mem_cons.mp hx with h2 | hx
    · exact absurd h2 (by norm_num)
    rcases List.mem_append.mp hx with hx | hx
    · exact absurd (frames_le_ninety m n 100 hx) (by norm_num)
    · exact hx
  · intro hx
    exact List.mem_cons_of_mem _ (List.mem_cons_of_mem _
      (List.mem_append_right _ hx))

/-- C6 counterexample: a 1 × 2 (w × h) source into a 1 × 1 target box:
the comparison picks the height-filling branch and the scaled width
`int(1 · (1/2)) = 0` makes `cv2.resize` raise — the function does not
return a raster of the target size for every source and box. -/
theorem resize_degenerate_cex :
    resize_with_aspect_ratio 2 1 1 1 = none := by
  norm_num [resize_with_aspect_ratio]

/-- C6 amended: for positive source and target dimensions such that both
candidate scaled dimensions are nonzero (`h ≤ th·w` and `w ≤ tw·h`),
`resize_with_aspect_ratio` succeeds and yields the canvas of exactly
`(tw, th)`, a scaled image that fits, fills one axis exactly and is
centered, and whose aspect ratio matches the source within one unit of
integer rounding. -/
theorem resize_exact_box (h w tw th : Nat) (hh : 0 < h) (hw : 0 < w)
    (htw : 0 < tw) (hth : 0 < th) (h1 : h ≤ th * w) (h2 : w ≤ tw * h) :
    ∃ r, resize_with_aspect_ratio h w tw th = some r ∧
      r.outW = tw ∧ r.outH = th ∧
      r.newW ≤ tw ∧ r.newH ≤ th ∧ (r.newH = th ∨ r.newW = tw) ∧
      r.xOff = (tw - r.newW) / 2 ∧ r.yOff = (th - r.newH) / 2 ∧
      r.xOff + r.newW ≤ tw ∧ r.yOff + r.newH ≤ th ∧
      ((r.newW * h ≤ r.newH * w ∧ r.newH * w < r.newW * h + h) ∨
       (r.newH * w ≤ r.newW * h ∧ r.newW * h < r.newH * w + w)) := by
  have hne : ¬ (h = 0 ∨ th = 0) := by omega
  by_cases hcmp : ((tw : ℚ) / th > (w : ℚ) / h)
  · -- height-filling branch: dims = (th * w / h, th)
    have hlt : w * th < tw * h := by
      have hx := (div_lt_div_iff₀ (by exact_mod_cast hh)
        (by exact_mod_cast hth)).mp hcmp
      exact_mod_cast hx
    have hle : th * w ≤ tw * h := by
      rw [mul_comm th w]
      exact le_of_lt hlt
    have hq : th * w / h ≤ tw :=
      le_of_le_of_eq (Nat.div_le_div_right hle) (Nat.mul_div_cancel tw hh)
    have hpos : 0 < th * w / h := Nat.div_pos h1 hh
    have hdm := Nat.div_add_mod (th * w) h
    have hmlt := Nat.mod_lt (th * w) hh
    refine ⟨⟨tw, th, th * w / h, th, (tw - th * w / h) / 2, (th - th) / 2⟩,
      ?_, rfl, rfl, hq, le_refl th, Or.inl rfl, rfl, rfl, ?_, ?_, ?_⟩
    · simp only [resize_with_aspect_ratio, if_neg hne, if_pos hcmp]
      rw [if_neg (by omega : ¬ (th * w / h = 0 ∨ th = 0))]
    · dsimp only
      omega
    · dsimp only
      omega
    · refine Or.inl ⟨Nat.div_mul_le_self _ _, ?_⟩
      calc th * w = h * (th * w / h) + th * w % h := hdm.symm
        _ < h * (th * w / h) + h := Nat.add_lt_add_left hmlt _
        _ = th * w / h * h + h := by rw [mul_comm]
  · -- width-filling branch: dims = (tw, tw * h / w)
    have hge : tw * h ≤ w * th := by
      have hx := (div_le_div_iff₀ (by exact_mod_cast hth)
        (by exact_mod_cast hh)).mp (not_lt.mp hcmp)
      exact_mod_cast hx
    have hle : tw * h ≤ th * w := by
      rw [mul_comm th w]
      exact hge
    have hq : tw * h / w ≤ th :=
      le_of_le_of_eq (Nat.div_le_div_right (by rw [mul_comm w th] at hge; exact hge))
        (Nat.mul_div_cancel th hw)
    have hpos : 0 < tw * h / w := Nat.div_pos h2 hw
    have hdm := Nat.div_add_mod (tw * h) w
    have hmlt := Nat.mod_lt (tw * h) hw
    refine ⟨⟨tw, th, tw, tw * h / w, (tw - tw) / 2, (th - tw * h / w) / 2⟩,
      ?_, rfl, rfl, le_refl tw, hq, Or.inr rfl, rfl, rfl, ?_, ?_, ?_⟩
    · simp only [resize_with_aspect_ratio, if_neg hne, if_neg hcmp]
      rw [if_neg (by omega : ¬ (tw = 0 ∨ tw * h / w = 0))]
    · dsimp only
      omega
    · dsimp only
      omega
    · refine Or.inr ⟨Nat.div_mul_le_self _ _, ?_⟩
      calc tw * h = w * (tw * h / w) + tw * h % w := hdm.symm
        _ < w * (tw * h / w) + w := Nat.add_lt_add_left hmlt _
        _ = tw * h / w * w + w := by rw [mul_comm]

/-- Witness for C6 amended: a 1280 × 720 source frame letterboxed into a
400 × 300 box. -/
theorem resize_exact_box_witness :
    0 < 720 ∧ 0 < 1280 ∧ 0 < 400 ∧ 0 < 300 ∧
    720 ≤ 300 * 1280 ∧ 1280 ≤ 400 * 720 ∧
    (∃ r, resize_with_aspect_ratio 720 1280 400 300 = some r ∧
      r.outW = 400 ∧ r.outH = 300 ∧
      r.newW ≤ 400 ∧ r.newH ≤ 300 ∧ (r.newH = 300 ∨ r.newW = 400) ∧
      r.xOff = (400 - r.newW) / 2 ∧ r.yOff = (300 - r.newH) / 2 ∧
      r.xOff + r.newW ≤ 400 ∧ r.yOff + r.newH ≤ 300 ∧
      ((r.newW * 720 ≤ r.newH * 1280 ∧
        r.newH * 1280 < r.newW * 720 + 720) ∨
       (r.newH * 1280 ≤ r.newW * 720 ∧
        r.newW * 720 < r.newH * 1280 + 1280))) :=
  ⟨by decide, by decide, by decide, by decide, by decide, by decide,
   resize_exact_box 720 1280 400 300 (by decide) (by decide) (by decide)
     (by decide) (by decide) (by decide)⟩

/-- C7 counterexample: a 1 × 2 overlay on a 1 × 4 background at
`x = −3`: the placement does not fit the bounds (negative x), the guard
does not trigger (`−3 + 2 ≤ 4`), numpy slice normalization maps the
columns to `[1, 3)`, and the overlay is written there — the call
returns a raster different from the unmodified background instead of
being a no-op. -/
theorem overlay_oob_write_cex :
    overlay_image bg14 ov12 (-3) 0 1 =
      some [[[0, 0, 0], [255, 255, 255], [255, 255, 255], [0, 0, 0]]] ∧
    ¬ overlayFits bg14 ov12 (-3) 0 ∧
    ([[[0, 0, 0], [255, 255, 255], [255, 255, 255], [0, 0, 0]]] : Img) ≠
      bg14 := by
  refine ⟨?_, by decide, by decide⟩
  norm_num [overlay_image, bg14, ov12, colsOf, chOf, npSliceIdx,
    writeBlock, addWeightedPixel, satU8, Int.toNat_ofNat]
  exact fun h => absurd rfl h

/-- C7 amended: for nonnegative placement coordinates and
channel-compatible rasters — a 4-channel overlay needs a background of
at least 3 channels for the per-channel writes, any other overlay needs
the equal channel count `cv2.addWeighted` demands — `overlay_image`
never raises, and when the overlay does not fit within the background
bounds it returns the unmodified background (a no-op). -/
theorem overlay_nonneg_total (background overlay : Img) (x y : Int)
    (alpha : ℚ) (hx : 0 ≤ x) (hy : 0 ≤ y)
    (hch4 : chOf overlay = 4 → 3 ≤ chOf background)
    (hch3 : ¬ chOf overlay = 4 → chOf background = chOf overlay) :
    (∃ r, overlay_image background overlay x y alpha = some r) ∧
    (¬ (x + (colsOf overlay : Int) ≤ (colsOf background : Int) ∧
        y + (overlay.length : Int) ≤ (background.length : Int)) →
      overlay_image background overlay x y alpha = some background) := by
  by_cases hfit : x + (colsOf overlay : Int) ≤ (colsOf background : Int) ∧
      y + (overlay.length : Int) ≤ (background.length : Int)
  · obtain ⟨hfx, hfy⟩ := hfit
    have hguard : ¬ (y + (overlay.length : Int) > (background.length : Int)
        ∨ x + (colsOf overlay : Int) > (colsOf background : Int)) := by
      omega
    have hrs : npSliceIdx background.length y = y.toNat := by
      unfold npSliceIdx
      rw [if_neg (by omega)]
      omega
    have hre : npSliceIdx background.length (y + overlay.length) =
        y.toNat + overlay.length := by
      unfold npSliceIdx
      rw [if_neg (by omega)]
      omega
    have hcs : npSliceIdx (colsOf background) x = x.toNat := by
      unfold npSliceIdx
      rw [if_neg (by omega)]
      omega
    have hce : npSliceIdx (colsOf background) (x + colsOf overlay) =
        x.toNat + colsOf overlay := by
      unfold npSliceIdx
      rw [if_neg (by omega)]
      omega
    constructor
    · by_cases hch : chOf overlay = 4
      · have h3 := hch4 hch
        simp [overlay_image, hguard, hrs, hre, hcs, hce, hch, h3]
      · have he := hch3 hch
        simp [overlay_image, hguard, hrs, hre, hcs, hce, hch, he]
    · intro hc
      exact absurd ⟨hfx, hfy⟩ hc
  · have hguard : y + (overlay.length : Int) > (background.length : Int)
        ∨ x + (colsOf overlay : Int) > (colsOf background : Int) := by
      omega
    have hres : overlay_image background overlay x y alpha =
        some background := by
      unfold overlay_image
      rw [if_pos hguard]
    exact ⟨⟨background, hres⟩, fun _ => hres⟩

/-- Witness for C7 amended: the 3-channel 1 × 2 overlay at `(0, 0)` on
a 3-channel 1 × 1 background does not fit, and the call returns the
background. -/
theorem overlay_nonneg_total_witness :
    (0 : Int) ≤ 0 ∧
    (chOf ov12 = 4 → 3 ≤ chOf [[[(0:ℚ), 0, 0]]]) ∧
    (¬ chOf ov12 = 4 → chOf ([[[(0:ℚ), 0, 0]]] : Img) = chOf ov12) ∧
    ((∃ r, overlay_image [[[0, 0, 0]]] ov12 0 0 1 = some r) ∧
     (¬ ((0 : Int) + (colsOf ov12 : Int) ≤ (colsOf [[[(0:ℚ), 0, 0]]] : Nat) ∧
         (0 : Int) + (ov12.length : Int) ≤
           (([[[(0:ℚ), 0, 0]]] : Img).length : Int)) →
       overlay_image [[[0, 0, 0]]] ov12 0 0 1 = some [[[0, 0, 0]]])) :=
  ⟨le_refl 0, by decide, by decide,
   overlay_nonneg_total [[[0, 0, 0]]] ov12 0 0 1 (le_refl 0) (le_refl 0)
     (by decide) (by decide)⟩

/-! ## Store framing lemmas for the mutation claim -/

theorem overlayImageSt_frame (st : Store) (bgRef : Nat) (ov : Img)
    (x y : Int) (alpha : ℚ) :
    (∀ r < st.next,
      ((overlayImageSt st bgRef ov x y alpha).2).mem r = st.mem r) ∧
    st.next ≤ ((overlayImageSt st bgRef ov x y alpha).2).next ∧
    (∀ r', (overlayImageSt st bgRef ov x y alpha).1 = some r' →
      st.next ≤ r') := by
  unfold overlayImageSt alloc writeRef
  rcases h : overlay_image (st.mem bgRef) ov x y alpha with _ | img <;>
    simp only [h] <;>
    refine ⟨?_, by omega, ?_⟩
  · intro r hr
    exact Function.update_noteq (by omega) _ _
  · intro r' hr'
    simp at hr'
  · intro r hr
    rw [Function.update_noteq (by omega) _ _,
      Function.update_noteq (by omega) _ _]
  · intro r' hr'
    simp at hr'
    omega

theorem addNamePlateSt_frame (R : ExternalRender) (sc : SpeakerConfig)
    (ec : ExportConfig) (st : Store) (frameRef : Nat)
    (sx sy : Int) (name : String) (m : Nat)
    (hm : m ≤ st.next) (hfr : m ≤ frameRef) :
    (∀ r < m,
      ((addNamePlateSt R sc ec st frameRef sx sy name).2).mem r =
        st.mem r) ∧
    m ≤ ((addNamePlateSt R sc ec st frameRef sx sy name).2).next ∧
    (∀ r', (addNamePlateSt R sc ec st frameRef sx sy name).1 = some r' →
      m ≤ r') := by
  unfold addNamePlateSt
  dsimp only
  split
  · split
    · obtain ⟨h1, h2, h3⟩ := overlayImageSt_frame st frameRef
        (R.plate name sc.width)
        (sx + (sc.width - (colsOf (R.plate name sc.width) : Int)).fdiv 2)
        (sy + sc.height + 5) 1
      refine ⟨fun r hr => h1 r (by omega), by omega, fun r' hr' => ?_⟩
      exact le_trans hm (h3 r' hr')
    · exact ⟨fun r _ => rfl, hm, fun r' hr' => by
        simp at hr'
        omega⟩
  · exact ⟨fun r _ => rfl, hm, fun r' hr' => by
      simp at hr'
      omega⟩

theorem addSpeakerToFrameSt_frame (R : ExternalRender)
    (sc : SpeakerConfig) (ec : ExportConfig) (st : Store)
    (frameRef : Nat) (f : Img) (pos : Int × Int) (name : String)
    (m : Nat) (hm : m ≤ st.next) (hfr : m ≤ frameRef) :
    (∀ r < m,
      ((addSpeakerToFrameSt R sc ec st frameRef f pos name).2).mem r =
        st.mem r) ∧
    m ≤ ((addSpeakerToFrameSt R sc ec st frameRef f pos name).2).next ∧
    (∀ r', (addSpeakerToFrameSt R sc ec st frameRef f pos name).1 =
      some r' → m ≤ r') := by
  unfold addSpeakerToFrameSt
  dsimp only
  split
  · rcases hassign : npAssign (st.mem frameRef)
      (R.letterbox f sc.width sc.height) pos.1 pos.2 with _ | newImg <;>
      dsimp only
    · exact ⟨fun r _ => rfl, hm, fun r' hr' => by simp at hr'⟩
    · split
      · obtain ⟨h1, h2, h3⟩ := addNamePlateSt_frame R sc ec
          (writeRef frameRef newImg st) frameRef pos.1 pos.2 name m
          (by simpa [writeRef] using hm) hfr
        refine ⟨fun r hr => ?_, h2, h3⟩
        rw [h1 r hr]
        simp only [writeRef]
        exact Function.update_noteq (by omega) _ _
      · refine ⟨fun r hr => ?_, by simp [writeRef]; omega,
          fun r' hr' => by
            simp at hr'
            omega⟩
        simp only [writeRef]
        exact Function.update_noteq (by omega) _ _
  · exact ⟨fun r _ => rfl, hm, fun r' hr' => by
      simp at hr'
      omega⟩

/-- C10: neither `compose_frame` nor `overlay_image` mutates the buffer
holding the caller's background: both build their result in freshly
allocated buffers (the resize output, its `.copy()`, overlay copies),
so after either call — including the paths that raise — the background
buffer holds bit-for-bit its previous content. -/
theorem compose_frame_no_background_mutation (R : ExternalRender)
    (sc : SpeakerConfig) (ec : ExportConfig) (st : Store) (bgRef : Nat)
    (f1 f2 : Option Img) (n1 n2 : String) (ov : Img) (x y : Int)
    (alpha : ℚ) (href : bgRef < st.next) :
    ((compose_frame R sc ec st bgRef f1 f2 n1 n2).2).mem bgRef =
      st.mem bgRef ∧
    ((overlayImageSt st bgRef ov x y alpha).2).mem bgRef =
      st.mem bgRef := by
  constructor
  · unfold compose_frame
    dsimp only
    set stB := alloc
      ((alloc (R.resize (st.mem bgRef) ec.width ec.height) st).2.mem
        (alloc (R.resize (st.mem bgRef) ec.width ec.height) st).1)
      (alloc (R.resize (st.mem bgRef) ec.width ec.height) st).2
      with hB
    have hBnext : stB.2.next = st.next + 2 := by
      simp [hB, alloc]
    have hBfst : stB.1 = st.next + 1 := by
      simp [hB, alloc]
    have hBmem : ∀ r < st.next, stB.2.mem r = st.mem r := by
      intro r hr
      simp only [hB, alloc]
      rw [Function.update_noteq (by omega) _ _,
        Function.update_noteq (by omega) _ _]
    rcases f1 with _ | i1 <;> dsimp only
    · rcases f2 with _ | i2 <;> dsimp only
      · exact hBmem bgRef href
      · obtain ⟨h1, _, _⟩ := addSpeakerToFrameSt_frame R sc ec
          stB.2 stB.1 i2 (calculateSpeakerPositions sc ec).2 n2 st.next
          (by omega) (by omega)
        rw [h1 bgRef href]
        exact hBmem bgRef href
    · obtain ⟨h1, h2, h3⟩ := addSpeakerToFrameSt_frame R sc ec
        stB.2 stB.1 i1 (calculateSpeakerPositions sc ec).1 n1 st.next
        (by omega) (by omega)
      rcases hstep : addSpeakerToFrameSt R sc ec stB.2 stB.1 i1
          (calculateSpeakerPositions sc ec).1 n1 with ⟨res1, st3⟩
      rw [hstep] at h1 h2 h3
      dsimp only at h1 h2 h3 ⊢
      rcases res1 with _ | r1 <;> dsimp only
      · rw [h1 bgRef href]
        exact hBmem bgRef href
      · rcases f2 with _ | i2 <;> dsimp only
        · rw [h1 bgRef href]
          exact hBmem bgRef href
        · obtain ⟨g1, _, _⟩ := addSpeakerToFrameSt_frame R sc ec st3 r1
            i2 (calculateSpeakerPositions sc ec).2 n2 st.next
            h2 (h3 r1 rfl)
          rw [g1 bgRef href, h1 bgRef href]
          exact hBmem bgRef href
  · exact (overlayImageSt_frame st bgRef ov x y alpha).1 bgRef href

/-- Witness for C10 at a concrete store: one background buffer, no
speaker frames. -/
theorem compose_frame_no_background_mutation_witness :
    0 < (1 : Nat) ∧
    (((compose_frame ⟨fun i _ _ => i, fun i _ _ => i, fun _ _ => []⟩
        ⟨400, 300, none⟩ ec1080 ⟨fun _ => bg14, 1⟩ 0 none none "" "").2).mem
          0 = (fun _ => bg14) 0 ∧
     ((overlayImageSt ⟨fun _ => bg14, 1⟩ 0 ov12 0 0 1).2).mem 0 =
       (fun _ => bg14) 0) :=
  ⟨by decide,
   compose_frame_no_background_mutation
     ⟨fun i _ _ => i, fun i _ _ => i, fun _ _ => []⟩ ⟨400, 300, none⟩
     ec1080 ⟨fun _ => bg14, 1⟩ 0 none none "" "" ov12 0 0 1 (by decide)⟩

/-- C8: within one export job the sequence of reported progress values
(2 on acceptance; 10 after audio; `10 + 80·(i+1)/max_frames` capped at
90 per frame; 92 at mux start; 100 on success) is monotonically
non-decreasing, every value lies in `[0, 100]`, and 100 appears exactly
when every phase succeeded. -/
theorem export_progress_monotone (max_frames k : Nat)
    (audioOk framesOk muxOk : Bool) :
    List.Pairwise (· ≤ ·)
      (exportProgressReports max_frames k audioOk framesOk muxOk) ∧
    (∀ x ∈ exportProgressReports max_frames k audioOk framesOk muxOk,
      (0 : ℚ) ≤ x ∧ x ≤ 100) ∧
    ((100 : ℚ) ∈ exportProgressReports max_frames k audioOk framesOk muxOk
      ↔ audioOk = true ∧ framesOk = true ∧ muxOk = true) := by
  cases audioOk
  · refine ⟨?_, ?_, ?_⟩
    · simp [exportProgressReports]
    · intro x hx
      simp only [exportProgressReports, Bool.false_eq_true, if_false] at hx
      rcases List.mem_cons.mp hx with rfl | hx
      · norm_num
      · simp at hx
    · simp [exportProgressReports]
  · have hmem : ∀ tail : List ℚ,
        ((100 : ℚ) ∈ 2 :: 10 ::
          ((List.range (if framesOk = true then max_frames else k)).map
            (frameProgress max_frames) ++ tail)) ↔ (100 : ℚ) ∈ tail :=
      fun tail => progress_list_mem_100 max_frames _ tail
    cases framesOk
    · simp only [exportProgressReports, Bool.false_eq_true, if_false,
        if_true, List.append_nil]
      refine ⟨?_, ?_, ?_⟩
      · have := progress_list_pairwise max_frames k []
          List.Pairwise.nil (by intro y hy; simp at hy)
        simpa using this
      · have := progress_list_bounds max_frames k []
          (by intro y hy; simp at hy)
        intro x hx
        exact this x (by simpa using hx)
      · have := hmem []
        simp only [Bool.false_eq_true, if_false] at this
        rw [List.append_nil] at this
        simp [this]
    · cases muxOk
      · simp only [exportProgressReports, Bool.false_eq_true, if_false,
          if_true]
        refine ⟨?_, ?_, ?_⟩
        · refine progress_list_pairwise max_frames max_frames [92]
            (by simp) ?_
          intro y hy
          rcases List.mem_cons.mp hy with rfl | hy
          · norm_num
          · simp at hy
        · refine progress_list_bounds max_frames max_frames [92] ?_
          intro y hy
          rcases List.mem_cons.mp hy with rfl | hy
          · norm_num
          · simp at hy
        · have := hmem [92]
          simp only [if_true] at this
          rw [this]
          simp
      · simp only [exportProgressReports, if_true]
        refine ⟨?_, ?_, ?_⟩
        · refine progress_list_pairwise max_frames max_frames [92, 100]
            ?_ ?_
          · refine List.pairwise_cons.mpr ⟨?_, by simp⟩
            intro y hy
            rcases List.mem_cons.mp hy with rfl | hy
            · norm_num
            · simp at hy
          · intro y hy
            rcases List.mem_cons.mp hy with rfl | hy
            · norm_num
            rcases List.mem_cons.mp hy with rfl | hy
            · norm_num
            · simp at hy
        · refine progress_list_bounds max_frames max_frames [92, 100] ?_
          intro y hy
          rcases List.mem_cons.mp hy with rfl | hy
          · norm_num
          rcases List.mem_cons.mp hy with rfl | hy
          · norm_num
          · simp at hy
        · have := hmem [92, 100]
          simp only [if_true] at this
          rw [this]
          simp

end MeetingVideo
